import Mathlib

/-!
# DShot motor output driver (`src/main/drivers/pwm_output_stm32f3xx.c`)

A shallow embedding of the routines of the driver

* `getTimerIndex`                  (timer registry),
* `pwmWriteDigital`                (frame encoder and DMA arming),
* `pwmCompleteDigitalMotorUpdate`  (batch restart of the timers),
* `motor_DMA_IRQHandler`           (transfer-complete handler),
* `pwmDigitalMotorHardwareConfig`  (per-motor set-up),

as state-passing functions on `System`, followed by the properties proved
about them.

Conventions of the embedding.

* The file-scope statics `dmaMotorTimerCount`, `dmaMotorTimers`, `dmaMotors`
  are fields of `System`.  C arrays are lists whose length is the declared
  capacity; an access outside the array is undefined behaviour in C and makes
  the embedded routine return `none`.
* Machine integers are natural numbers; every conversion to `uint8_t`,
  `uint16_t` or `uint32_t` that the C code performs is an explicit `%`.
* Pointers to peripherals are natural numbers (their identity); a pointer to
  a constant `timerHardware_t` is `Option timerHardware_t`, `none` being
  `NULL`; dereferencing `NULL` makes the routine return `none`.
* Every call into the peripheral library is an `HwCall`.  `emit` appends it
  to `System.log` (the trace of calls in program order) and applies its
  register effect `exec` to `System.hw`.
-/

namespace PwmOutput

/-! ## Constants of the source file -/

/-- Source constant `#define MAX_DMA_TIMERS 8`. -/
def MAX_DMA_TIMERS : Nat := 8

/-- Source constant `#define MOTOR_DSHOT600_MHZ 24`. -/
def MOTOR_DSHOT600_MHZ : Nat := 24

/-- Source constant `#define MOTOR_DSHOT150_MHZ 6`. -/
def MOTOR_DSHOT150_MHZ : Nat := 6

/-- Source constant `#define MOTOR_BIT_0 14`. -/
def MOTOR_BIT_0 : Nat := 14

/-- Source constant `#define MOTOR_BIT_1 29`. -/
def MOTOR_BIT_1 : Nat := 29

/-- Source constant `#define MOTOR_BITLENGTH 39`. -/
def MOTOR_BITLENGTH : Nat := 39

/-! ## Declarations taken from headers that are not part of the source tree -/

/-- Modelled from the spec: `MOTOR_DMA_BUFFER_SIZE` is defined in
`pwm_output.h`, which is missing; the spec fixes the tick buffer at
16 entries (11 data bits, 1 telemetry bit, 4 checksum bits). -/
def MOTOR_DMA_BUFFER_SIZE : Nat := 16

/-- Modelled from the spec: channel selector `TIM_Channel_1` of the vendor
timer header (missing); the value is the one of `stm32f30x_tim.h`. -/
def TIM_Channel_1 : Nat := 0x0000

/-- Modelled from the spec: channel selector `TIM_Channel_2` (vendor header, missing). -/
def TIM_Channel_2 : Nat := 0x0004

/-- Modelled from the spec: channel selector `TIM_Channel_3` (vendor header, missing). -/
def TIM_Channel_3 : Nat := 0x0008

/-- Modelled from the spec: channel selector `TIM_Channel_4` (vendor header, missing). -/
def TIM_Channel_4 : Nat := 0x000C

/-- Modelled from the spec: DMA trigger source `TIM_DMA_CC1` of the vendor
timer header (missing); one bit of the timer's DMA request enable register. -/
def TIM_DMA_CC1 : Nat := 0x0200

/-- Modelled from the spec: DMA trigger source `TIM_DMA_CC2` (vendor header, missing). -/
def TIM_DMA_CC2 : Nat := 0x0400

/-- Modelled from the spec: DMA trigger source `TIM_DMA_CC3` (vendor header, missing). -/
def TIM_DMA_CC3 : Nat := 0x0800

/-- Modelled from the spec: DMA trigger source `TIM_DMA_CC4` (vendor header, missing). -/
def TIM_DMA_CC4 : Nat := 0x1000

/-- Modelled from the spec: interrupt selector `DMA_IT_TC` (transfer complete)
of the vendor DMA header (missing). -/
def DMA_IT_TC : Nat := 0x2

/-- Modelled from the spec: `DMA_IT_TCIF`, the transfer-complete flag of
`dma.h` (missing), before it is shifted to the descriptor's channel. -/
def DMA_IT_TCIF : Nat := 0x2

/-- Identity of a timer peripheral: the value of a `TIM_TypeDef *`. -/
abbrev TimId := Nat

/-- Identity of a DMA stream: the value of a `DMA_Channel_TypeDef *`. -/
abbrev DmaCh := Nat

/-- Modelled from the spec: `timerHardware_t` is declared in `timer.h`
(missing); these are the fields the driver reads.  An I/O pin is identified
by its `tag`. -/
structure timerHardware_t where
  tim : TimId
  tag : Nat
  channel : Nat
  alternateFunction : Nat
  dmaChannel : DmaCh
  dmaIrqHandler : Nat
deriving DecidableEq, Repr

/-- Modelled from the spec: `motorPwmProtocolTypes_e` is declared in
`pwm_output.h` (missing); the driver only compares against
`PWM_TYPE_DSHOT600`. -/
inductive motorPwmProtocolTypes_e where
  | PWM_TYPE_STANDARD
  | PWM_TYPE_ONESHOT125
  | PWM_TYPE_ONESHOT42
  | PWM_TYPE_MULTISHOT
  | PWM_TYPE_BRUSHED
  | PWM_TYPE_DSHOT600
  | PWM_TYPE_DSHOT150
deriving DecidableEq, Repr

/-- Modelled from the spec: `motorDmaTimer_t` is declared in `pwm_output.h`
(missing): a timer identity and the DMA trigger sources enabled on it. -/
structure motorDmaTimer_t where
  timer : TimId
  timerDmaSources : Nat
deriving DecidableEq, Repr

/-- Modelled from the spec: `motorDmaOutput_t` is declared in `pwm_output.h`
(missing): timer binding, last written value, DMA trigger source and the
tick buffer of `MOTOR_DMA_BUFFER_SIZE` entries. -/
structure motorDmaOutput_t where
  timerHardware : Option timerHardware_t
  value : Nat
  timerDmaSource : Nat
  dmaBuffer : List Nat
deriving DecidableEq, Repr

/-- Modelled from the spec: `dmaChannelDescriptor_t` is declared in `dma.h`
(missing): the DMA controller, the stream, and the position of the stream's
flags in the controller's status register. -/
structure dmaChannelDescriptor_t where
  dma : Nat
  channel : DmaCh
  flagsShift : Nat
deriving DecidableEq, Repr

/-- Modelled from the spec: values supplied by the target and the clock
service (`SystemCoreClock`, `timerClockDivisor`), both outside the source
tree. -/
structure Target where
  SystemCoreClock : Nat
  timerClockDivisor : TimId → Nat

/-! ## Peripheral state and the peripheral library -/

/-- Registers of one timer that the properties below read: counter enable,
counter, prescaler, auto-reload (period) and the DMA request enable mask. -/
structure TimRegs where
  cen : Bool
  cnt : Nat
  psc : Nat
  arr : Nat
  dier : Nat
deriving DecidableEq, Repr

/-- Registers of one DMA stream: stream enable and remaining transfer length. -/
structure DmaRegs where
  en : Bool
  cndtr : Nat
deriving DecidableEq, Repr

/-- Peripheral state: timers, DMA streams, and the interrupt status register
of each DMA controller. -/
structure Hw where
  tim : TimId → TimRegs
  dma : DmaCh → DmaRegs
  isr : Nat → Nat

/-- One call into the peripheral library, with the arguments that vary. -/
inductive HwCall where
  | IOInit (pin : Nat)
  | IOConfigGPIOAF (pin : Nat) (af : Nat)
  | RCC_ClockCmd (timer : TimId) (enable : Bool)
  | TIM_Cmd (timer : TimId) (enable : Bool)
  | TIM_TimeBaseInit (timer : TimId) (prescaler : Nat) (period : Nat)
  | TIM_OCInit (timer : TimId) (channel : Nat)
  | TIM_OCPreloadConfig (timer : TimId) (channel : Nat)
  | TIM_CtrlPWMOutputs (timer : TimId) (enable : Bool)
  | TIM_ARRPreloadConfig (timer : TimId) (enable : Bool)
  | TIM_SetCounter (timer : TimId) (counter : Nat)
  | TIM_DMACmd (timer : TimId) (sources : Nat) (enable : Bool)
  | DMA_Cmd (channel : DmaCh) (enable : Bool)
  | DMA_DeInit (channel : DmaCh)
  | DMA_ITConfig (channel : DmaCh) (it : Nat) (enable : Bool)
  | DMA_Init (channel : DmaCh) (peripheralAddr : Nat) (motorIndex : Nat) (bufferSize : Nat)
  | DMA_SetCurrDataCounter (channel : DmaCh) (count : Nat)
  | DMA_CLEAR_FLAG (dma : Nat) (mask : Nat)
  | dmaSetHandler (irq : Nat) (motorIndex : Nat)
deriving DecidableEq, Repr

/-- Modelled from the spec: the register effect of the calls of the vendor
peripheral library (missing from the source tree).  `TIM_Cmd`, `DMA_Cmd`
write the enable bit; `TIM_TimeBaseInit` writes prescaler and period;
`TIM_SetCounter` writes the counter; `TIM_DMACmd` sets or clears the given
request bits; `DMA_SetCurrDataCounter` and `DMA_Init` write the transfer
length; `DMA_DeInit` resets the stream; `DMA_CLEAR_FLAG` clears the given
status bits.  The remaining calls touch none of the modelled registers. -/
def exec (hw : Hw) : HwCall → Hw
  | .TIM_Cmd t e => { hw with tim := Function.update hw.tim t { (hw.tim t) with cen := e } }
  | .TIM_TimeBaseInit t p a =>
      { hw with tim := Function.update hw.tim t { (hw.tim t) with psc := p, arr := a } }
  | .TIM_SetCounter t c => { hw with tim := Function.update hw.tim t { (hw.tim t) with cnt := c } }
  | .TIM_DMACmd t m e =>
      let d := (hw.tim t).dier
      { hw with tim := Function.update hw.tim t { (hw.tim t) with dier := if e then d ||| m else d ^^^ (d &&& m) } }
  | .DMA_Cmd c e => { hw with dma := Function.update hw.dma c { (hw.dma c) with en := e } }
  | .DMA_DeInit c => { hw with dma := Function.update hw.dma c { en := false, cndtr := 0 } }
  | .DMA_Init c _ _ n => { hw with dma := Function.update hw.dma c { (hw.dma c) with cndtr := n } }
  | .DMA_SetCurrDataCounter c n =>
      { hw with dma := Function.update hw.dma c { (hw.dma c) with cndtr := n } }
  | .DMA_CLEAR_FLAG d m =>
      { hw with isr := Function.update hw.isr d (hw.isr d ^^^ (hw.isr d &&& m)) }
  | _ => hw

/-! ## Driver state -/

/-- The statics of the driver together with the peripherals and the trace of
library calls. -/
structure System where
  dmaMotorTimerCount : Nat
  dmaMotorTimers : List motorDmaTimer_t
  dmaMotors : List motorDmaOutput_t
  hw : Hw
  log : List HwCall

/-- Performs one library call: records it and applies its register effect. -/
def emit (c : HwCall) (s : System) : System :=
  { s with hw := exec s.hw c, log := s.log ++ [c] }

/-- Zero-initialised statics (C static storage) for a target with
`maxMotors` motors (`MAX_SUPPORTED_MOTORS`, a target constant), on
peripherals in state `hw`, with an empty trace. -/
def initSystem (maxMotors : Nat) (hw : Hw) : System :=
  { dmaMotorTimerCount := 0
    dmaMotorTimers := List.replicate MAX_DMA_TIMERS { timer := 0, timerDmaSources := 0 }
    dmaMotors := List.replicate maxMotors
      { timerHardware := none, value := 0, timerDmaSource := 0,
        dmaBuffer := List.replicate MOTOR_DMA_BUFFER_SIZE 0 }
    hw := hw
    log := [] }

/-- Peripherals after reset: everything disabled and zero. -/
def resetHw : Hw :=
  { tim := fun _ => { cen := false, cnt := 0, psc := 0, arr := 0, dier := 0 }
    dma := fun _ => { en := false, cndtr := 0 }
    isr := fun _ => 0 }

/-! ## `getTimerIndex` -/

/-- The search loop of `getTimerIndex`,
`for (int i = 0; i < dmaMotorTimerCount; i++)`, at index `i` with
`n = dmaMotorTimerCount - i` iterations left.  `some (some i)` is `return i`,
`some none` is leaving the loop without a match, `none` is a read outside
`dmaMotorTimers`. -/
def getTimerIndex.loop (timers : List motorDmaTimer_t) (timer : TimId) :
    Nat → Nat → Option (Option Nat)
  | 0, _ => some none
  | n + 1, i =>
    match timers[i]? with
    | none => none
    | some e => if e.timer = timer then some (some i) else getTimerIndex.loop timers timer n (i + 1)

/-- Source function `uint8_t getTimerIndex(TIM_TypeDef *timer)`: the returned index and the
new state.  Appending when `dmaMotorTimerCount` is not below `MAX_DMA_TIMERS`
writes outside the array and yields `none`. -/
def getTimerIndex (timer : TimId) (s : System) : Option (Nat × System) :=
  match getTimerIndex.loop s.dmaMotorTimers timer s.dmaMotorTimerCount 0 with
  | none => none
  | some (some i) => some (i % 256, s)
  | some none =>
    match s.dmaMotorTimers[s.dmaMotorTimerCount]? with
    | none => none
    | some e =>
      let s1 : System :=
        { s with
          dmaMotorTimers := s.dmaMotorTimers.set s.dmaMotorTimerCount { e with timer := timer }
          dmaMotorTimerCount := (s.dmaMotorTimerCount + 1) % 256 }
      some ((s1.dmaMotorTimerCount + 255) % 256, s1)

/-- A sequence of `getTimerIndex` calls, one per element, in order: the list
of returned indices and the final state. -/
def getTimerIndexSeq : List TimId → System → Option (List Nat × System)
  | [], s => some ([], s)
  | t :: ts, s =>
    match getTimerIndex t s with
    | none => none
    | some (i, s1) =>
      match getTimerIndexSeq ts s1 with
      | none => none
      | some (is, s2) => some (i :: is, s2)

/-! ## `pwmWriteDigital` -/

/-- The C condition `x ? a : b` on an integer `x`. -/
def cIf (x a b : Nat) : Nat := if x ≠ 0 then a else b

/-- The assignment `motor->dmaBuffer[i] = v`; `none` outside the buffer. -/
def storeBuf (i v : Nat) (m : motorDmaOutput_t) : Option motorDmaOutput_t :=
  if i < m.dmaBuffer.length then some { m with dmaBuffer := m.dmaBuffer.set i v } else none

/-- The first statement of `pwmWriteDigital`,
`value = (value <= 1000) ? 0 : ((value - 1000) * 2) + 48`, the arithmetic in
`int`, the result stored in the `uint16_t` parameter. -/
def dshotValue (value : Nat) : Nat :=
  if value ≤ 1000 then 0 else ((value - 1000) * 2 + 48) % 65536

/-- The sixteen assignments `motor->dmaBuffer[i] = ...` of `pwmWriteDigital`
as pairs (index, stored tick count), in program order, for the already
converted `value`. -/
def frameWrites (value : Nat) : List (Nat × Nat) :=
  [ (0, cIf (value &&& 0x400) MOTOR_BIT_1 MOTOR_BIT_0),
    (1, cIf (value &&& 0x200) MOTOR_BIT_1 MOTOR_BIT_0),
    (2, cIf (value &&& 0x100) MOTOR_BIT_1 MOTOR_BIT_0),
    (3, cIf (value &&& 0x80) MOTOR_BIT_1 MOTOR_BIT_0),
    (4, cIf (value &&& 0x40) MOTOR_BIT_1 MOTOR_BIT_0),
    (5, cIf (value &&& 0x20) MOTOR_BIT_1 MOTOR_BIT_0),
    (6, cIf (value &&& 0x10) MOTOR_BIT_1 MOTOR_BIT_0),
    (7, cIf (value &&& 0x8) MOTOR_BIT_1 MOTOR_BIT_0),
    (8, cIf (value &&& 0x4) MOTOR_BIT_1 MOTOR_BIT_0),
    (9, cIf (value &&& 0x2) MOTOR_BIT_1 MOTOR_BIT_0),
    (10, cIf (value &&& 0x1) MOTOR_BIT_1 MOTOR_BIT_0),
    (11, MOTOR_BIT_0),
    (12, cIf ((value &&& 0x400) ^^^ (value &&& 0x40) ^^^ (value &&& 0x4)) MOTOR_BIT_1 MOTOR_BIT_0),
    (13, cIf ((value &&& 0x200) ^^^ (value &&& 0x20) ^^^ (value &&& 0x2)) MOTOR_BIT_1 MOTOR_BIT_0),
    (14, cIf ((value &&& 0x100) ^^^ (value &&& 0x10) ^^^ (value &&& 0x1)) MOTOR_BIT_1 MOTOR_BIT_0),
    (15, cIf ((value &&& 0x80) ^^^ (value &&& 0x8) ^^^ 0x0) MOTOR_BIT_1 MOTOR_BIT_0) ]

/-- Performs a list of buffer assignments in order. -/
def storeAll : List (Nat × Nat) → motorDmaOutput_t → Option motorDmaOutput_t
  | [], m => some m
  | (i, v) :: ws, m =>
    match storeBuf i v m with
    | none => none
    | some m1 => storeAll ws m1

/-- The buffer part of `pwmWriteDigital`: the sixteen assignments, in order. -/
def writeFrame (value : Nat) (m : motorDmaOutput_t) : Option motorDmaOutput_t :=
  storeAll (frameWrites value) m

/-- Source function `void pwmWriteDigital(uint8_t index, uint16_t value)`. -/
def pwmWriteDigital (index : Nat) (value : Nat) (s : System) : Option System :=
  match s.dmaMotors[index]? with
  | none => none
  | some motor =>
    let value := dshotValue value
    match writeFrame value { motor with value := value } with
    | none => none
    | some motor1 =>
      match motor1.timerHardware with
      | none => none
      | some th =>
        let s1 : System := { s with dmaMotors := s.dmaMotors.set index motor1 }
        let s2 := emit (.DMA_SetCurrDataCounter th.dmaChannel MOTOR_DMA_BUFFER_SIZE) s1
        some (emit (.DMA_Cmd th.dmaChannel true) s2)

/-! ## `pwmCompleteDigitalMotorUpdate` -/

/-- The loop of `pwmCompleteDigitalMotorUpdate`,
`for (uint8_t i = 0; i < dmaMotorTimerCount; i++)`, at index `i` with
`n = dmaMotorTimerCount - i` iterations left (the body does not change
`dmaMotorTimerCount`, and `i` stays below it, so `i++` never wraps). -/
def pwmCompleteDigitalMotorUpdate.loop : Nat → Nat → System → Option System
  | 0, _, s => some s
  | n + 1, i, s =>
    match s.dmaMotorTimers[i]? with
    | none => none
    | some e =>
      let s1 := emit (.TIM_SetCounter e.timer 0) s
      let s2 := emit (.TIM_DMACmd e.timer e.timerDmaSources true) s1
      pwmCompleteDigitalMotorUpdate.loop n (i + 1) s2

/-- Source function `void pwmCompleteDigitalMotorUpdate(uint8_t motorCount)`; the argument is unused. -/
def pwmCompleteDigitalMotorUpdate (_motorCount : Nat) (s : System) : Option System :=
  pwmCompleteDigitalMotorUpdate.loop s.dmaMotorTimerCount 0 s

/-! ## `motor_DMA_IRQHandler` -/

/-- Modelled from the spec: the flag mask `flag << d->flagsShift` used by the
macros `DMA_GET_FLAG_STATUS` and `DMA_CLEAR_FLAG` of `dma.h` (missing), a
32-bit value. -/
def flagMask (d : dmaChannelDescriptor_t) (flag : Nat) : Nat :=
  (flag <<< d.flagsShift) % 4294967296

/-- Modelled from the spec: macro `DMA_GET_FLAG_STATUS(d, flag)` of `dma.h`
(missing), `d->dma->ISR & (flag << d->flagsShift)`. -/
def DMA_GET_FLAG_STATUS (d : dmaChannelDescriptor_t) (flag : Nat) (s : System) : Nat :=
  s.hw.isr d.dma &&& flagMask d flag

/-- Source function `static void motor_DMA_IRQHandler(dmaChannelDescriptor_t *descriptor)`. -/
def motor_DMA_IRQHandler (descriptor : dmaChannelDescriptor_t) (s : System) : System :=
  if DMA_GET_FLAG_STATUS descriptor DMA_IT_TCIF s ≠ 0 then
    let s1 := emit (.DMA_Cmd descriptor.channel false) s
    emit (.DMA_CLEAR_FLAG descriptor.dma (flagMask descriptor DMA_IT_TCIF)) s1
  else s

/-! ## `pwmDigitalMotorHardwareConfig` -/

/-- The assignment `motor->timerDmaSource = src` for `motor = &dmaMotors[motorIndex]`. -/
def setTimerDmaSource (motorIndex src : Nat) (s : System) : System :=
  match s.dmaMotors[motorIndex]? with
  | none => s
  | some m => { s with dmaMotors := s.dmaMotors.set motorIndex { m with timerDmaSource := src } }

/-- The first `if (configureTimer)` block: clock enable, counter stop and
time base.  The prescaler is `(SystemCoreClock / timerClockDivisor(timer) / hz) - 1`
in `uint32_t`, stored in the 16-bit `TIM_Prescaler`; a zero divisor is a
division by zero and yields `none`. -/
def configTimeBase (tgt : Target) (timer : TimId) (pwmProtocolType : motorPwmProtocolTypes_e)
    (configureTimer : Bool) (s : System) : Option System :=
  if configureTimer then
    let s1 := emit (.RCC_ClockCmd timer true) s
    let s2 := emit (.TIM_Cmd timer false) s1
    let hz := ((if pwmProtocolType = .PWM_TYPE_DSHOT600 then MOTOR_DSHOT600_MHZ
                else MOTOR_DSHOT150_MHZ) * 1000000) % 4294967296
    if tgt.timerClockDivisor timer = 0 then none
    else
      let q := tgt.SystemCoreClock % 4294967296 / tgt.timerClockDivisor timer / hz
      let prescaler := ((q + 4294967295) % 4294967296) % 65536
      some (emit (.TIM_TimeBaseInit timer prescaler MOTOR_BITLENGTH) s2)
  else some s

/-- The `switch (timerHardware->channel)`: output-compare set-up of the
channel, the motor's DMA trigger source, and the address of the compare
register (`timerChannelAddress`, zero when no case matches). -/
def configChannel (timer : TimId) (channel motorIndex : Nat) (s : System) : Nat × System :=
  if channel = TIM_Channel_1 then
    let s1 := setTimerDmaSource motorIndex TIM_DMA_CC1 (emit (.TIM_OCInit timer 1) s)
    ((timer + 0x34) % 4294967296, emit (.TIM_OCPreloadConfig timer 1) s1)
  else if channel = TIM_Channel_2 then
    let s1 := setTimerDmaSource motorIndex TIM_DMA_CC2 (emit (.TIM_OCInit timer 2) s)
    ((timer + 0x38) % 4294967296, emit (.TIM_OCPreloadConfig timer 2) s1)
  else if channel = TIM_Channel_3 then
    let s1 := setTimerDmaSource motorIndex TIM_DMA_CC3 (emit (.TIM_OCInit timer 3) s)
    ((timer + 0x3C) % 4294967296, emit (.TIM_OCPreloadConfig timer 3) s1)
  else if channel = TIM_Channel_4 then
    let s1 := setTimerDmaSource motorIndex TIM_DMA_CC4 (emit (.TIM_OCInit timer 4) s)
    ((timer + 0x40) % 4294967296, emit (.TIM_OCPreloadConfig timer 4) s1)
  else (0, s)

/-- The second `if (configureTimer)` block: main output, auto-reload preload,
counter start. -/
def startTimer (timer : TimId) (configureTimer : Bool) (s : System) : System :=
  if configureTimer then
    emit (.TIM_Cmd timer true)
      (emit (.TIM_ARRPreloadConfig timer true) (emit (.TIM_CtrlPWMOutputs timer true) s))
  else s

/-- The DMA part, from `DMA_Cmd(channel, DISABLE)` to `dmaSetHandler`. -/
def configDma (th : timerHardware_t) (timerChannelAddress motorIndex : Nat) (s : System) :
    Option System :=
  let channel := th.dmaChannel
  let s1 := emit (.DMA_Cmd channel false) s
  let s2 := emit (.DMA_DeInit channel) s1
  match s2.dmaMotors[motorIndex]? with
  | none => none
  | some motor =>
    let s3 := emit (.TIM_DMACmd th.tim motor.timerDmaSource true) s2
    let s4 := emit (.DMA_ITConfig channel DMA_IT_TC true) s3
    let s5 := emit (.DMA_Init channel timerChannelAddress motorIndex MOTOR_DMA_BUFFER_SIZE) s4
    some (emit (.dmaSetHandler th.dmaIrqHandler motorIndex) s5)

/-- Source function `void pwmDigitalMotorHardwareConfig(const timerHardware_t *timerHardware,
uint8_t motorIndex, motorPwmProtocolTypes_e pwmProtocolType)`. -/
def pwmDigitalMotorHardwareConfig (tgt : Target) (timerHardware : timerHardware_t)
    (motorIndex : Nat) (pwmProtocolType : motorPwmProtocolTypes_e) (s : System) :
    Option System :=
  match s.dmaMotors[motorIndex]? with
  | none => none
  | some motor =>
    let s1 : System :=
      { s with dmaMotors := s.dmaMotors.set motorIndex { motor with timerHardware := some timerHardware } }
    let timer := timerHardware.tim
    let motorPin := timerHardware.tag
    match getTimerIndex timer s1 with
    | none => none
    | some (timerIndex, s2) =>
      let configureTimer : Bool := decide ((timerIndex : Int) = (s2.dmaMotorTimerCount : Int) - 1)
      let s3 := emit (.IOInit motorPin) s2
      let s4 := emit (.IOConfigGPIOAF motorPin timerHardware.alternateFunction) s3
      match configTimeBase tgt timer pwmProtocolType configureTimer s4 with
      | none => none
      | some s5 =>
        let (timerChannelAddress, s6) := configChannel timer timerHardware.channel motorIndex s5
        let s7 := startTimer timer configureTimer s6
        configDma timerHardware timerChannelAddress motorIndex s7

/-! ## Auxiliary definitions used in the statements -/

/-- The motor entry after the encoder has run on `m` with input `throttle`. -/
def encoded (m : motorDmaOutput_t) (throttle : Nat) : motorDmaOutput_t :=
  { m with value := dshotValue throttle, dmaBuffer := (frameWrites (dshotValue throttle)).map Prod.snd }

/-- The 12-bit word of a frame as the protocol defines it: the 11 transmitted
payload bits of `value` followed by the telemetry bit 0. -/
def frameWord (value : Nat) : Nat := (value % 2048) * 2

/-- Checksum bit `i` as the protocol defines it: the exclusive or of the bits
`i + 8`, `i + 4` and `i` of the 12-bit word `w`. -/
def checksumBit (w i : Nat) : Bool := (w.testBit (i + 8) ^^ w.testBit (i + 4)) ^^ w.testBit i

/-- The number a list of tick counts transmits, most significant bit first,
29 ticks being a one and anything else a zero. -/
def decodeTicks (ticks : List Nat) : Nat :=
  ticks.foldl (fun acc x => 2 * acc + (if x = MOTOR_BIT_1 then 1 else 0)) 0

/-- Timer identities in order of first appearance. -/
def firstSeen (seq : List TimId) : List TimId :=
  seq.foldl (fun acc t => if t ∈ acc then acc else acc ++ [t]) []

/-- Registry invariant: the first `dmaMotorTimerCount` entries of
`dmaMotorTimers` hold exactly the identities `seen`, in that order. -/
def RegistryHolds (s : System) (seen : List TimId) : Prop :=
  s.dmaMotorTimerCount = seen.length ∧
  s.dmaMotorTimers.length = MAX_DMA_TIMERS ∧
  seen.length ≤ MAX_DMA_TIMERS ∧
  (s.dmaMotorTimers.take seen.length).map (fun e => e.timer) = seen

/-- No registry entry has a DMA trigger source recorded. -/
def SourcesUnset (s : System) : Prop :=
  ∀ e ∈ s.dmaMotorTimers, e.timerDmaSources = 0

/-- The calls `pwmCompleteDigitalMotorUpdate` makes for one registry entry. -/
def restartCalls (e : motorDmaTimer_t) : List HwCall :=
  [HwCall.TIM_SetCounter e.timer 0, HwCall.TIM_DMACmd e.timer e.timerDmaSources true]

/-- A sequence of `pwmDigitalMotorHardwareConfig` calls, one per element
(timer binding, motor index, protocol), in order. -/
def configAll (tgt : Target) :
    List (timerHardware_t × Nat × motorPwmProtocolTypes_e) → System → Option System
  | [], s => some s
  | c :: cs, s =>
    match pwmDigitalMotorHardwareConfig tgt c.1 c.2.1 c.2.2 s with
    | none => none
    | some s1 => configAll tgt cs s1

/-- The calls `pwmCompleteDigitalMotorUpdate` makes for a timer whose registry
entry records no trigger source. -/
def restartCallsUnset (t : TimId) : List HwCall :=
  [HwCall.TIM_SetCounter t 0, HwCall.TIM_DMACmd t 0 true]

/-! ## Sample data used to instantiate the theorems -/

/-- A target running at 72 MHz whose timers are clocked undivided. -/
def sampleTarget : Target :=
  { SystemCoreClock := 72000000, timerClockDivisor := fun _ => 1 }

/-- A motor output on channel 1 of the timer at address `0x40000400`. -/
def sampleHardwareA : timerHardware_t :=
  { tim := 0x40000400, tag := 1, channel := TIM_Channel_1, alternateFunction := 2,
    dmaChannel := 11, dmaIrqHandler := 3 }

/-- A motor output on channel 2 of the same timer as `sampleHardwareA`. -/
def sampleHardwareB : timerHardware_t :=
  { tim := 0x40000400, tag := 2, channel := TIM_Channel_2, alternateFunction := 2,
    dmaChannel := 12, dmaIrqHandler := 4 }

/-- A motor entry bound to `sampleHardwareA` with a zeroed buffer. -/
def sampleMotor : motorDmaOutput_t :=
  { timerHardware := some sampleHardwareA, value := 0, timerDmaSource := TIM_DMA_CC1,
    dmaBuffer := List.replicate MOTOR_DMA_BUFFER_SIZE 0 }

/-- A four-motor system whose motor 0 is `sampleMotor`. -/
def sampleSystem : System :=
  { initSystem 4 resetHw with
    dmaMotors := (initSystem 4 resetHw).dmaMotors.set 0 sampleMotor }

/-- A descriptor of stream 11 on controller 1 whose flags start at bit 0. -/
def sampleDescriptor : dmaChannelDescriptor_t :=
  { dma := 1, channel := 11, flagsShift := 0 }

/-- The sample system with stream 11 running and its transfer-complete flag raised. -/
def sampleSystemFlagged : System :=
  { sampleSystem with
    hw := { resetHw with
            dma := fun _ => { en := true, cndtr := 0 }
            isr := fun _ => 0x2 } }

/-! ## Properties of `pwmWriteDigital` -/

/-- Assignments to consecutive indices `k, k+1, ...` inside the buffer all
succeed and replace exactly that segment of the buffer. -/
theorem storeAll_consecutive (ws : List (Nat × Nat)) :
    ∀ (k : Nat) (m : motorDmaOutput_t),
      ws.map Prod.fst = List.range' k ws.length →
      k + ws.length ≤ m.dmaBuffer.length →
      storeAll ws m = some { m with
        dmaBuffer := m.dmaBuffer.take k ++ ws.map Prod.snd ++ m.dmaBuffer.drop (k + ws.length) } := by
  induction ws with
  | nil =>
    intro k m _ _
    simp [storeAll]
  | cons w ws ih =>
    intro k m hidx hlen
    obtain ⟨i, v⟩ := w
    simp only [List.map_cons, List.length_cons, List.range'_succ, List.cons.injEq] at hidx
    obtain ⟨rfl, hrest⟩ := hidx
    simp only [List.length_cons] at hlen
    have hi : i < m.dmaBuffer.length := by omega
    simp only [storeAll, storeBuf, hi, if_true]
    rw [ih (i + 1) _ hrest (by simp; omega)]
    simp only [List.map_cons, List.length_cons]
    have h1 : List.take (i + 1) (m.dmaBuffer.set i v) = List.take i m.dmaBuffer ++ [v] := by
      rw [List.set_eq_take_append_cons_drop, if_pos hi]
      have hl : (List.take i m.dmaBuffer).length = i := by simp; omega
      rw [List.take_append_eq_append_take, hl]
      simp [List.take_take]
    have h2 : List.drop (i + 1 + ws.length) (m.dmaBuffer.set i v)
        = List.drop (i + (ws.length + 1)) m.dmaBuffer := by
      rw [List.drop_set_of_lt v m.dmaBuffer (by omega)]
      congr 1
      omega
    rw [h1, h2]
    simp

/-- The assignments of `pwmWriteDigital` go to the indices 0, 1, ..., 15 in order. -/
theorem frameWrites_idx (v : Nat) : (frameWrites v).map Prod.fst = List.range' 0 (frameWrites v).length := by
  rfl

/-- On a buffer of `MOTOR_DMA_BUFFER_SIZE` entries the sixteen assignments
succeed and overwrite the whole buffer. -/
theorem writeFrame_eq (v : Nat) (m : motorDmaOutput_t)
    (hlen : m.dmaBuffer.length = MOTOR_DMA_BUFFER_SIZE) :
    writeFrame v m = some { m with dmaBuffer := (frameWrites v).map Prod.snd } := by
  unfold writeFrame
  rw [storeAll_consecutive _ 0 m (frameWrites_idx v) (by rw [hlen]; simp [frameWrites, MOTOR_DMA_BUFFER_SIZE])]
  have : (frameWrites v).length = 16 := rfl
  simp [this, hlen, MOTOR_DMA_BUFFER_SIZE]

/-- The state `pwmWriteDigital` returns for a motor that exists, has a full
buffer and is bound to a timer channel. -/
theorem pwmWriteDigital_eq (s : System) (index throttle : Nat) (m : motorDmaOutput_t)
    (th : timerHardware_t) (hm : s.dmaMotors[index]? = some m)
    (hlen : m.dmaBuffer.length = MOTOR_DMA_BUFFER_SIZE) (hth : m.timerHardware = some th) :
    pwmWriteDigital index throttle s =
      some (emit (.DMA_Cmd th.dmaChannel true)
        (emit (.DMA_SetCurrDataCounter th.dmaChannel MOTOR_DMA_BUFFER_SIZE)
          { s with dmaMotors := s.dmaMotors.set index (encoded m throttle) })) := by
  unfold pwmWriteDigital
  rw [hm]
  simp only
  rw [writeFrame_eq _ _ (by simpa using hlen)]
  simp only [hth, encoded]

/-- The motor read back after a successful `pwmWriteDigital`. -/
theorem pwmWriteDigital_motor (s : System) (index throttle : Nat) (m : motorDmaOutput_t)
    (th : timerHardware_t) (hm : s.dmaMotors[index]? = some m)
    (hlen : m.dmaBuffer.length = MOTOR_DMA_BUFFER_SIZE) (hth : m.timerHardware = some th) :
    ∃ s', pwmWriteDigital index throttle s = some s' ∧
      s'.dmaMotors[index]? = some (encoded m throttle) := by
  refine ⟨_, pwmWriteDigital_eq s index throttle m th hm hlen hth, ?_⟩
  have hi : index < s.dmaMotors.length := by
    by_contra h
    rw [List.getElem?_eq_none (by omega)] at hm
    exact Option.noConfusion hm
  simp [emit, List.getElem?_set, hi]

/-- A single-bit mask test selects the tick count by that bit. -/
theorem cIf_bit (v k a b : Nat) : cIf (v &&& 2 ^ k) a b = if v.testBit k then a else b := by
  unfold cIf
  rw [Nat.and_two_pow]
  cases h : v.testBit k <;> simp

/-- A tick count chosen by a C condition is one of the two tick counts. -/
theorem cIf_ticks (x : Nat) : cIf x 29 14 = 14 ∨ cIf x 29 14 = 29 := by
  unfold cIf
  split <;> simp

/-! ### The encoded frame -/

/-- Claim C4: for every throttle, `pwmWriteDigital` on a configured motor
succeeds and leaves a buffer of 16 entries, each of them 14 or 29; for
`i` in 0..10 entry `i` is 29 when bit `10 - i` of the stored value is set and
14 otherwise; entry 11 (telemetry) is 14. -/
theorem pwmWriteDigital_ticks (s : System) (index throttle : Nat)
    (m : motorDmaOutput_t) (th : timerHardware_t) (hm : s.dmaMotors[index]? = some m)
    (hlen : m.dmaBuffer.length = MOTOR_DMA_BUFFER_SIZE) (hth : m.timerHardware = some th) :
    ∃ s' m', pwmWriteDigital index throttle s = some s' ∧
      s'.dmaMotors[index]? = some m' ∧
      m'.dmaBuffer.length = 16 ∧
      (∀ i, i < 16 → m'.dmaBuffer[i]? = some 14 ∨ m'.dmaBuffer[i]? = some 29) ∧
      (∀ i, i ≤ 10 → m'.dmaBuffer[i]? = some (if m'.value.testBit (10 - i) then 29 else 14)) ∧
      m'.dmaBuffer[11]? = some 14 := by
  obtain ⟨s', h1, h2⟩ := pwmWriteDigital_motor s index throttle m th hm hlen hth
  refine ⟨s', _, h1, h2, rfl, ?_, ?_, rfl⟩
  · intro i hi
    interval_cases i <;> simp [encoded, frameWrites, MOTOR_BIT_0, MOTOR_BIT_1] <;>
      exact cIf_ticks _
  · intro i hi
    have e10 := cIf_bit (dshotValue throttle) 10 29 14
    have e9 := cIf_bit (dshotValue throttle) 9 29 14
    have e8 := cIf_bit (dshotValue throttle) 8 29 14
    have e7 := cIf_bit (dshotValue throttle) 7 29 14
    have e6 := cIf_bit (dshotValue throttle) 6 29 14
    have e5 := cIf_bit (dshotValue throttle) 5 29 14
    have e4 := cIf_bit (dshotValue throttle) 4 29 14
    have e3 := cIf_bit (dshotValue throttle) 3 29 14
    have e2 := cIf_bit (dshotValue throttle) 2 29 14
    have e1 := cIf_bit (dshotValue throttle) 1 29 14
    have e0 := cIf_bit (dshotValue throttle) 0 29 14
    norm_num at e10 e9 e8 e7 e6 e5 e4 e3 e2 e1 e0
    interval_cases i <;> simp [encoded, frameWrites, MOTOR_BIT_0, MOTOR_BIT_1, *]

/-- Claim C4 instantiated: motor 0 of `sampleSystem`, throttle 1500. -/
theorem pwmWriteDigital_ticks_witness :
    ∃ s' m', pwmWriteDigital 0 1500 sampleSystem = some s' ∧
      s'.dmaMotors[0]? = some m' ∧
      m'.dmaBuffer.length = 16 ∧
      (∀ i, i < 16 → m'.dmaBuffer[i]? = some 14 ∨ m'.dmaBuffer[i]? = some 29) ∧
      (∀ i, i ≤ 10 → m'.dmaBuffer[i]? = some (if m'.value.testBit (10 - i) then 29 else 14)) ∧
      m'.dmaBuffer[11]? = some 14 :=
  pwmWriteDigital_ticks sampleSystem 0 1500 sampleMotor sampleHardwareA rfl rfl rfl

/-- Claim C8: for every throttle in 0..1000, `pwmWriteDigital` on a configured
motor succeeds and leaves all 16 buffer entries equal to 14. -/
theorem pwmWriteDigital_disarm (s : System) (index throttle : Nat)
    (m : motorDmaOutput_t) (th : timerHardware_t) (hm : s.dmaMotors[index]? = some m)
    (hlen : m.dmaBuffer.length = MOTOR_DMA_BUFFER_SIZE) (hth : m.timerHardware = some th)
    (ht : throttle ≤ 1000) :
    ∃ s' m', pwmWriteDigital index throttle s = some s' ∧
      s'.dmaMotors[index]? = some m' ∧
      m'.dmaBuffer = [14, 14, 14, 14, 14, 14, 14, 14, 14, 14, 14, 14, 14, 14, 14, 14] := by
  obtain ⟨s', h1, h2⟩ := pwmWriteDigital_motor s index throttle m th hm hlen hth
  refine ⟨s', _, h1, h2, ?_⟩
  have hv : dshotValue throttle = 0 := by simp [dshotValue, ht]
  simp [encoded, hv, frameWrites, cIf, MOTOR_BIT_0]

/-- Claim C8 instantiated: motor 0 of `sampleSystem`, throttle 1000. -/
theorem pwmWriteDigital_disarm_witness :
    ∃ s' m', pwmWriteDigital 0 1000 sampleSystem = some s' ∧
      s'.dmaMotors[0]? = some m' ∧
      m'.dmaBuffer = [14, 14, 14, 14, 14, 14, 14, 14, 14, 14, 14, 14, 14, 14, 14, 14] :=
  pwmWriteDigital_disarm sampleSystem 0 1000 sampleMotor sampleHardwareA rfl rfl rfl (by decide)

/-- Claim C3: on a configured motor `pwmWriteDigital` succeeds and stores in
the motor's `value` field 0 for every throttle in 0..1000 and
`(t - 1000) * 2 + 48` for every throttle `t` in 1001..3047; on 1001..3047 the
stored value is even and strictly increasing in the throttle. -/
theorem pwmWriteDigital_value (s : System) (index : Nat)
    (m : motorDmaOutput_t) (th : timerHardware_t) (hm : s.dmaMotors[index]? = some m)
    (hlen : m.dmaBuffer.length = MOTOR_DMA_BUFFER_SIZE) (hth : m.timerHardware = some th) :
    (∀ t, ∃ s' m', pwmWriteDigital index t s = some s' ∧ s'.dmaMotors[index]? = some m' ∧
      (t ≤ 1000 → m'.value = 0) ∧
      (1001 ≤ t → t ≤ 3047 → m'.value = (t - 1000) * 2 + 48 ∧ m'.value % 2 = 0)) ∧
    (∀ t₁ t₂ s₁ s₂ m₁ m₂, 1001 ≤ t₁ → t₁ < t₂ → t₂ ≤ 3047 →
      pwmWriteDigital index t₁ s = some s₁ → s₁.dmaMotors[index]? = some m₁ →
      pwmWriteDigital index t₂ s = some s₂ → s₂.dmaMotors[index]? = some m₂ →
      m₁.value < m₂.value) := by
  have key : ∀ t, 1001 ≤ t → t ≤ 3047 → dshotValue t = (t - 1000) * 2 + 48 := by
    intro t h1 h2
    unfold dshotValue
    rw [if_neg (by omega), Nat.mod_eq_of_lt (by omega)]
  constructor
  · intro t
    obtain ⟨s', h1, h2⟩ := pwmWriteDigital_motor s index t m th hm hlen hth
    refine ⟨s', _, h1, h2, ?_, ?_⟩
    · intro ht
      simp [encoded, dshotValue, ht]
    · intro ha hb
      simp only [encoded]
      rw [key t ha hb]
      exact ⟨rfl, by omega⟩
  · intro t₁ t₂ s₁ s₂ m₁ m₂ ha hlt hb e₁ r₁ e₂ r₂
    obtain ⟨u₁, f₁, g₁⟩ := pwmWriteDigital_motor s index t₁ m th hm hlen hth
    obtain ⟨u₂, f₂, g₂⟩ := pwmWriteDigital_motor s index t₂ m th hm hlen hth
    rw [f₁] at e₁
    rw [f₂] at e₂
    cases e₁
    cases e₂
    rw [g₁] at r₁
    rw [g₂] at r₂
    cases r₁
    cases r₂
    simp only [encoded]
    rw [key t₁ ha (by omega), key t₂ (by omega) hb]
    omega

/-- Claim C3 instantiated on motor 0 of `sampleSystem`: throttle 1000 stores
0, throttle 1500 stores the even value 1048, and throttle 1501 stores more
than throttle 1500. -/
theorem pwmWriteDigital_value_witness :
    (∃ s' m', pwmWriteDigital 0 1000 sampleSystem = some s' ∧ s'.dmaMotors[0]? = some m' ∧
      m'.value = 0) ∧
    (∃ s' m', pwmWriteDigital 0 1500 sampleSystem = some s' ∧ s'.dmaMotors[0]? = some m' ∧
      m'.value = 1048 ∧ m'.value % 2 = 0) ∧
    (∃ s₁ s₂ m₁ m₂, pwmWriteDigital 0 1500 sampleSystem = some s₁ ∧
      s₁.dmaMotors[0]? = some m₁ ∧ pwmWriteDigital 0 1501 sampleSystem = some s₂ ∧
      s₂.dmaMotors[0]? = some m₂ ∧ m₁.value < m₂.value) := by
  have h := pwmWriteDigital_value sampleSystem 0 sampleMotor sampleHardwareA rfl rfl rfl
  obtain ⟨a, ma, ha1, ha2, ha3, _⟩ := h.1 1000
  obtain ⟨b, mb, hb1, hb2, _, hb4⟩ := h.1 1500
  obtain ⟨c, mc, hc1, hc2, _, _⟩ := h.1 1501
  exact ⟨⟨a, ma, ha1, ha2, ha3 (by decide)⟩,
    ⟨b, mb, hb1, hb2, hb4 (by decide) (by decide)⟩,
    ⟨b, c, mb, mc, hb1, hb2, hc1, hc2,
      h.2 1500 1501 b c mb mc (by decide) (by decide) (by decide) hb1 hb2 hc1 hc2⟩⟩

/-! ### Frame effect of `pwmWriteDigital` -/

/-- Claim C9: `pwmWriteDigital` on a configured motor succeeds; it leaves the
target motor's timer binding and DMA trigger source, every other motor, the
timer registry, every timer register and every DMA status register
unchanged; of the DMA streams only the target motor's stream changes, whose
transfer length becomes `MOTOR_DMA_BUFFER_SIZE` (16) and which is enabled; the
only library calls made are `DMA_SetCurrDataCounter` and `DMA_Cmd` on that
stream. -/
theorem pwmWriteDigital_frame (s : System) (index throttle : Nat)
    (m : motorDmaOutput_t) (th : timerHardware_t) (hm : s.dmaMotors[index]? = some m)
    (hlen : m.dmaBuffer.length = MOTOR_DMA_BUFFER_SIZE) (hth : m.timerHardware = some th) :
    ∃ s' m', pwmWriteDigital index throttle s = some s' ∧
      s'.dmaMotors[index]? = some m' ∧
      m'.timerHardware = m.timerHardware ∧ m'.timerDmaSource = m.timerDmaSource ∧
      s'.dmaMotors.length = s.dmaMotors.length ∧
      (∀ j, j ≠ index → s'.dmaMotors[j]? = s.dmaMotors[j]?) ∧
      (s'.hw.dma th.dmaChannel).cndtr = MOTOR_DMA_BUFFER_SIZE ∧
      MOTOR_DMA_BUFFER_SIZE = 16 ∧
      (s'.hw.dma th.dmaChannel).en = true ∧
      (∀ c, c ≠ th.dmaChannel → s'.hw.dma c = s.hw.dma c) ∧
      s'.dmaMotorTimerCount = s.dmaMotorTimerCount ∧
      s'.dmaMotorTimers = s.dmaMotorTimers ∧
      s'.hw.tim = s.hw.tim ∧
      s'.hw.isr = s.hw.isr ∧
      s'.log = s.log ++ [HwCall.DMA_SetCurrDataCounter th.dmaChannel MOTOR_DMA_BUFFER_SIZE,
                         HwCall.DMA_Cmd th.dmaChannel true] := by
  obtain ⟨s', h1, h2⟩ := pwmWriteDigital_motor s index throttle m th hm hlen hth
  have h3 := pwmWriteDigital_eq s index throttle m th hm hlen hth
  rw [h1] at h3
  cases h3
  refine ⟨_, _, h1, h2, rfl, rfl, ?_, ?_, ?_, rfl, ?_, ?_, rfl, rfl, rfl, rfl, ?_⟩
  · simp [emit]
  · intro j hj
    simp [emit, List.getElem?_set, Ne.symm hj]
  · simp [emit, exec]
  · simp [emit, exec]
  · intro c hc
    simp [emit, exec, Function.update, hc]
  · simp [emit]

/-- Claim C9 instantiated: motor 0 of `sampleSystem`, throttle 1500. -/
theorem pwmWriteDigital_frame_witness :
    ∃ s' m', pwmWriteDigital 0 1500 sampleSystem = some s' ∧
      s'.dmaMotors[0]? = some m' ∧
      m'.timerHardware = sampleMotor.timerHardware ∧
      m'.timerDmaSource = sampleMotor.timerDmaSource ∧
      s'.dmaMotors.length = sampleSystem.dmaMotors.length ∧
      (∀ j, j ≠ 0 → s'.dmaMotors[j]? = sampleSystem.dmaMotors[j]?) ∧
      (s'.hw.dma sampleHardwareA.dmaChannel).cndtr = MOTOR_DMA_BUFFER_SIZE ∧
      MOTOR_DMA_BUFFER_SIZE = 16 ∧
      (s'.hw.dma sampleHardwareA.dmaChannel).en = true ∧
      (∀ c, c ≠ sampleHardwareA.dmaChannel → s'.hw.dma c = sampleSystem.hw.dma c) ∧
      s'.dmaMotorTimerCount = sampleSystem.dmaMotorTimerCount ∧
      s'.dmaMotorTimers = sampleSystem.dmaMotorTimers ∧
      s'.hw.tim = sampleSystem.hw.tim ∧
      s'.hw.isr = sampleSystem.hw.isr ∧
      s'.log = sampleSystem.log ++
        [HwCall.DMA_SetCurrDataCounter sampleHardwareA.dmaChannel MOTOR_DMA_BUFFER_SIZE,
         HwCall.DMA_Cmd sampleHardwareA.dmaChannel true] :=
  pwmWriteDigital_frame sampleSystem 0 1500 sampleMotor sampleHardwareA rfl rfl rfl

/-! ### Checksum and payload range -/

/-- The condition on three masked words selects 29 as soon as one of the three
bits is set: the exclusive or of words that are non-zero at different
positions is non-zero. -/
theorem cIf_xor3 (v a b c : Nat) (hab : a ≠ b) (hac : a ≠ c) (hbc : b ≠ c) :
    cIf ((v &&& 2 ^ a) ^^^ (v &&& 2 ^ b) ^^^ (v &&& 2 ^ c)) 29 14 =
      if v.testBit a || v.testBit b || v.testBit c then 29 else 14 := by
  have key : ((v &&& 2 ^ a) ^^^ (v &&& 2 ^ b) ^^^ (v &&& 2 ^ c) = 0) ↔
      (v.testBit a || v.testBit b || v.testBit c) = false := by
    constructor
    · intro h0
      have ta := congrArg (fun x => Nat.testBit x a) h0
      have tb := congrArg (fun x => Nat.testBit x b) h0
      have tc := congrArg (fun x => Nat.testBit x c) h0
      simp only [Nat.testBit_xor, Nat.testBit_and, Nat.testBit_two_pow, Nat.zero_testBit] at ta tb tc
      simp [hab, hac, hbc, Ne.symm hab, Ne.symm hac, Ne.symm hbc] at ta tb tc
      simp [ta, tb, tc]
    · intro h
      simp only [Bool.or_eq_false_iff] at h
      obtain ⟨⟨ha, hb⟩, hc⟩ := h
      rw [Nat.and_two_pow, Nat.and_two_pow, Nat.and_two_pow, ha, hb, hc]
      simp
  unfold cIf
  by_cases hz : (v &&& 2 ^ a) ^^^ (v &&& 2 ^ b) ^^^ (v &&& 2 ^ c) = 0
  · rw [if_neg (by simpa using hz), key.1 hz]
    simp
  · rw [if_pos hz]
    have : (v.testBit a || v.testBit b || v.testBit c) = true := by
      cases h : (v.testBit a || v.testBit b || v.testBit c)
      · exact absurd (key.2 h) hz
      · rfl
    rw [this]
    simp

/-- The two-word form of `cIf_xor3`, for the column whose third source is the
constant 0. -/
theorem cIf_xor2 (v a b : Nat) (hab : a ≠ b) :
    cIf ((v &&& 2 ^ a) ^^^ (v &&& 2 ^ b) ^^^ 0) 29 14 =
      if v.testBit a || v.testBit b then 29 else 14 := by
  have key : ((v &&& 2 ^ a) ^^^ (v &&& 2 ^ b) ^^^ 0 = 0) ↔
      (v.testBit a || v.testBit b) = false := by
    constructor
    · intro h0
      have ta := congrArg (fun x => Nat.testBit x a) h0
      have tb := congrArg (fun x => Nat.testBit x b) h0
      simp only [Nat.testBit_xor, Nat.testBit_and, Nat.testBit_two_pow, Nat.zero_testBit] at ta tb
      simp [hab, Ne.symm hab] at ta tb
      simp [ta, tb]
    · intro h
      simp only [Bool.or_eq_false_iff] at h
      obtain ⟨ha, hb⟩ := h
      rw [Nat.and_two_pow, Nat.and_two_pow, ha, hb]
      simp
  unfold cIf
  by_cases hz : (v &&& 2 ^ a) ^^^ (v &&& 2 ^ b) ^^^ 0 = 0
  · rw [if_neg (by simpa using hz), key.1 hz]
    simp
  · rw [if_pos hz]
    have : (v.testBit a || v.testBit b) = true := by
      cases h : (v.testBit a || v.testBit b)
      · exact absurd (key.2 h) hz
      · rfl
    rw [this]
    simp

/-- What the code stores in the four checksum entries, for every throttle:
entry 12 is 29 exactly when one of the value bits 10, 6, 2 is set, entry 13
when one of 9, 5, 1 is set, entry 14 when one of 8, 4, 0 is set, entry 15 when
one of 7, 3 is set. -/
theorem pwmWriteDigital_checksum_entries (s : System) (index throttle : Nat)
    (m : motorDmaOutput_t) (th : timerHardware_t) (hm : s.dmaMotors[index]? = some m)
    (hlen : m.dmaBuffer.length = MOTOR_DMA_BUFFER_SIZE) (hth : m.timerHardware = some th) :
    ∃ s' m', pwmWriteDigital index throttle s = some s' ∧ s'.dmaMotors[index]? = some m' ∧
      m'.dmaBuffer[12]? = some
        (if m'.value.testBit 10 || m'.value.testBit 6 || m'.value.testBit 2 then 29 else 14) ∧
      m'.dmaBuffer[13]? = some
        (if m'.value.testBit 9 || m'.value.testBit 5 || m'.value.testBit 1 then 29 else 14) ∧
      m'.dmaBuffer[14]? = some
        (if m'.value.testBit 8 || m'.value.testBit 4 || m'.value.testBit 0 then 29 else 14) ∧
      m'.dmaBuffer[15]? = some
        (if m'.value.testBit 7 || m'.value.testBit 3 then 29 else 14) := by
  obtain ⟨s', h1, h2⟩ := pwmWriteDigital_motor s index throttle m th hm hlen hth
  have e12 := cIf_xor3 (dshotValue throttle) 10 6 2 (by decide) (by decide) (by decide)
  have e13 := cIf_xor3 (dshotValue throttle) 9 5 1 (by decide) (by decide) (by decide)
  have e14 := cIf_xor3 (dshotValue throttle) 8 4 0 (by decide) (by decide) (by decide)
  have e15 := cIf_xor2 (dshotValue throttle) 7 3 (by decide)
  refine ⟨s', _, h1, h2, ?_, ?_, ?_, ?_⟩
  · simpa [encoded, frameWrites, MOTOR_BIT_0, MOTOR_BIT_1] using e12
  · simpa [encoded, frameWrites, MOTOR_BIT_0, MOTOR_BIT_1] using e13
  · rw [pow_zero] at e14
    simp only [encoded, frameWrites, MOTOR_BIT_0, MOTOR_BIT_1]
    norm_num at e14
    simp [e14]
  · simpa [encoded, frameWrites, MOTOR_BIT_0, MOTOR_BIT_1] using e15

/-- Binary expansion of the low eleven bits, most significant digit first. -/
theorem horner11 (v : Nat) :
    2 * (2 * (2 * (2 * (2 * (2 * (2 * (2 * (2 * (2 * (2 * 0 + v / 1024 % 2) + v / 512 % 2) + v / 256 % 2)
      + v / 128 % 2) + v / 64 % 2) + v / 32 % 2) + v / 16 % 2) + v / 8 % 2) + v / 4 % 2) + v / 2 % 2)
      + v % 2 = v % 2048 := by
  have h0 : v % 2048 = v % 2 + 2 * (v / 2 % 1024) := by omega
  have h1 : v / 2 % 1024 = v / 2 % 2 + 2 * (v / 4 % 512) := by omega
  have h2 : v / 4 % 512 = v / 4 % 2 + 2 * (v / 8 % 256) := by omega
  have h3 : v / 8 % 256 = v / 8 % 2 + 2 * (v / 16 % 128) := by omega
  have h4 : v / 16 % 128 = v / 16 % 2 + 2 * (v / 32 % 64) := by omega
  have h5 : v / 32 % 64 = v / 32 % 2 + 2 * (v / 64 % 32) := by omega
  have h6 : v / 64 % 32 = v / 64 % 2 + 2 * (v / 128 % 16) := by omega
  have h7 : v / 128 % 16 = v / 128 % 2 + 2 * (v / 256 % 8) := by omega
  have h8 : v / 256 % 8 = v / 256 % 2 + 2 * (v / 512 % 4) := by omega
  have h9 : v / 512 % 4 = v / 512 % 2 + 2 * (v / 1024 % 2) := by omega
  rw [h0, h1, h2, h3, h4, h5, h6, h7, h8, h9]
  ring

/-- A payload tick contributes the corresponding binary digit when decoded. -/
theorem decode_digit (v k : Nat) :
    (if cIf (v &&& 2 ^ k) MOTOR_BIT_1 MOTOR_BIT_0 = MOTOR_BIT_1 then 1 else 0) = v / 2 ^ k % 2 := by
  rw [cIf_bit, Nat.testBit_to_div_mod]
  by_cases h : v / 2 ^ k % 2 = 1
  · simp [h]
  · have h0 : v / 2 ^ k % 2 = 0 := by omega
    simp [h0, MOTOR_BIT_0, MOTOR_BIT_1]

/-- The eleven payload entries transmit the stored value modulo 2048. -/
theorem decodeTicks_payload (v : Nat) :
    decodeTicks (((frameWrites v).map Prod.snd).take 11) = v % 2048 := by
  have e10 := decode_digit v 10
  have e9 := decode_digit v 9
  have e8 := decode_digit v 8
  have e7 := decode_digit v 7
  have e6 := decode_digit v 6
  have e5 := decode_digit v 5
  have e4 := decode_digit v 4
  have e3 := decode_digit v 3
  have e2 := decode_digit v 2
  have e1 := decode_digit v 1
  have e0 := decode_digit v 0
  norm_num at e10 e9 e8 e7 e6 e5 e4 e3 e2 e1
  rw [pow_zero, Nat.div_one] at e0
  simp only [decodeTicks, frameWrites, List.map_cons, List.take_succ_cons, List.take_zero,
    List.foldl_cons, List.foldl_nil, e10, e9, e8, e7, e6, e5, e4, e3, e2, e1, e0]
  exact horner11 v

/-- Below full throttle the value stays in the payload range and the payload
entries transmit it unchanged. -/
theorem pwmWriteDigital_payload_below_full (s : System) (index t : Nat)
    (m : motorDmaOutput_t) (th : timerHardware_t) (hm : s.dmaMotors[index]? = some m)
    (hlen : m.dmaBuffer.length = MOTOR_DMA_BUFFER_SIZE) (hth : m.timerHardware = some th)
    (h1 : 1001 ≤ t) (h2 : t ≤ 1999) :
    ∃ s' m', pwmWriteDigital index t s = some s' ∧ s'.dmaMotors[index]? = some m' ∧
      m'.value = (t - 1000) * 2 + 48 ∧ 48 ≤ m'.value ∧ m'.value ≤ 2047 ∧
      decodeTicks (m'.dmaBuffer.take 11) = m'.value := by
  obtain ⟨s', e1, e2⟩ := pwmWriteDigital_motor s index t m th hm hlen hth
  have hv : dshotValue t = (t - 1000) * 2 + 48 := by
    unfold dshotValue
    rw [if_neg (by omega), Nat.mod_eq_of_lt (by omega)]
  refine ⟨s', _, e1, e2, hv, ?_, ?_, ?_⟩
  · simp only [encoded]; omega
  · simp only [encoded]; omega
  · simp only [encoded]
    rw [decodeTicks_payload, Nat.mod_eq_of_lt (by omega)]

/-- Claim C1 fails on the code: at throttle 1010 the stored value is 68
(bits 6 and 2 set, bit 10 clear), the protocol's checksum bit 3 of the frame
word is 0, yet `pwmWriteDigital` writes 29 (a one) into `dmaBuffer[12]`,
because the condition `(value & 0x400) ^ (value & 0x40) ^ (value & 0x4)` is
non-zero as soon as any of the three bits is set. -/
theorem pwmWriteDigital_checksum_mismatch :
    ∃ s' m', pwmWriteDigital 0 1010 sampleSystem = some s' ∧
      s'.dmaMotors[0]? = some m' ∧
      m'.value = 68 ∧
      checksumBit (frameWord m'.value) 3 = false ∧
      m'.dmaBuffer[12]? = some MOTOR_BIT_1 := by
  obtain ⟨s', h1, h2⟩ :=
    pwmWriteDigital_motor sampleSystem 0 1010 sampleMotor sampleHardwareA rfl rfl rfl
  exact ⟨s', _, h1, h2, by decide, by decide, by decide⟩

/-- Claim C2 fails on the code: at throttle 2000, the top of the input range,
the stored value is 2048, which exceeds 2047, and the eleven payload entries
are all 14, so the transmitted payload is 0 and not the stored value. -/
theorem pwmWriteDigital_full_throttle_overflow :
    ∃ s' m', pwmWriteDigital 0 2000 sampleSystem = some s' ∧
      s'.dmaMotors[0]? = some m' ∧
      m'.value = (2000 - 1000) * 2 + 48 ∧
      m'.value = 2048 ∧
      m'.dmaBuffer.take 11 = [14, 14, 14, 14, 14, 14, 14, 14, 14, 14, 14] ∧
      decodeTicks (m'.dmaBuffer.take 11) = 0 := by
  obtain ⟨s', h1, h2⟩ :=
    pwmWriteDigital_motor sampleSystem 0 2000 sampleMotor sampleHardwareA rfl rfl rfl
  exact ⟨s', _, h1, h2, by decide, by decide, by decide, by decide⟩

/-! ## Properties of `motor_DMA_IRQHandler` -/

/-- Clearing the bits of a mask in a register clears exactly these bits. -/
theorem clear_mask_testBit (r m i : Nat) :
    (r ^^^ (r &&& m)).testBit i = (r.testBit i && !m.testBit i) := by
  rw [Nat.testBit_xor, Nat.testBit_and]
  cases r.testBit i <;> cases m.testBit i <;> rfl

/-- After clearing the bits of a mask, the register has none of them. -/
theorem clear_mask_and (r m : Nat) : (r ^^^ (r &&& m)) &&& m = 0 := by
  apply Nat.eq_of_testBit_eq
  intro i
  rw [Nat.testBit_and, clear_mask_testBit]
  cases r.testBit i <;> cases m.testBit i <;> simp

/-- Claim C10: when the descriptor's transfer-complete flag is set,
`motor_DMA_IRQHandler` disables the descriptor's stream and clears the flag:
the stream's transfer length, every other stream, every other bit of the
status register, the other controllers' status registers, the timers, the
motors and the timer registry are unchanged, and the only library calls are
the stream disable and the flag clear.  When the flag is not set the whole
state is unchanged. -/
theorem motor_DMA_IRQHandler_effect (d : dmaChannelDescriptor_t) (s : System) :
    (DMA_GET_FLAG_STATUS d DMA_IT_TCIF s ≠ 0 →
      ((motor_DMA_IRQHandler d s).hw.dma d.channel).en = false ∧
      ((motor_DMA_IRQHandler d s).hw.dma d.channel).cndtr = (s.hw.dma d.channel).cndtr ∧
      (∀ c, c ≠ d.channel → (motor_DMA_IRQHandler d s).hw.dma c = s.hw.dma c) ∧
      DMA_GET_FLAG_STATUS d DMA_IT_TCIF (motor_DMA_IRQHandler d s) = 0 ∧
      (∀ i, (flagMask d DMA_IT_TCIF).testBit i = false →
        ((motor_DMA_IRQHandler d s).hw.isr d.dma).testBit i = (s.hw.isr d.dma).testBit i) ∧
      (∀ k, k ≠ d.dma → (motor_DMA_IRQHandler d s).hw.isr k = s.hw.isr k) ∧
      (motor_DMA_IRQHandler d s).hw.tim = s.hw.tim ∧
      (motor_DMA_IRQHandler d s).dmaMotors = s.dmaMotors ∧
      (motor_DMA_IRQHandler d s).dmaMotorTimers = s.dmaMotorTimers ∧
      (motor_DMA_IRQHandler d s).dmaMotorTimerCount = s.dmaMotorTimerCount ∧
      (motor_DMA_IRQHandler d s).log = s.log ++
        [HwCall.DMA_Cmd d.channel false, HwCall.DMA_CLEAR_FLAG d.dma (flagMask d DMA_IT_TCIF)]) ∧
    (DMA_GET_FLAG_STATUS d DMA_IT_TCIF s = 0 → motor_DMA_IRQHandler d s = s) := by
  constructor
  · intro hset
    have hrun : motor_DMA_IRQHandler d s =
        emit (.DMA_CLEAR_FLAG d.dma (flagMask d DMA_IT_TCIF)) (emit (.DMA_Cmd d.channel false) s) := by
      unfold motor_DMA_IRQHandler
      rw [if_pos hset]
    rw [hrun]
    refine ⟨?_, ?_, ?_, ?_, ?_, ?_, rfl, rfl, rfl, rfl, ?_⟩
    · simp [emit, exec]
    · simp [emit, exec]
    · intro c hc
      simp [emit, exec, Function.update, hc]
    · simp only [DMA_GET_FLAG_STATUS, emit, exec, Function.update_same]
      exact clear_mask_and _ _
    · intro i hi
      simp only [emit, exec, Function.update_same]
      rw [clear_mask_testBit, hi]
      simp
    · intro k hk
      simp [emit, exec, Function.update, hk]
    · simp [emit]
  · intro hclear
    unfold motor_DMA_IRQHandler
    rw [if_neg (by simpa using hclear)]

/-- Claim C10 instantiated: with the flag raised in `sampleSystemFlagged` the
stream is disabled and the flag cleared; in `sampleSystem`, where no flag is
set, nothing changes. -/
theorem motor_DMA_IRQHandler_effect_witness :
    (((motor_DMA_IRQHandler sampleDescriptor sampleSystemFlagged).hw.dma 11).en = false ∧
      DMA_GET_FLAG_STATUS sampleDescriptor DMA_IT_TCIF
        (motor_DMA_IRQHandler sampleDescriptor sampleSystemFlagged) = 0) ∧
    motor_DMA_IRQHandler sampleDescriptor sampleSystem = sampleSystem := by
  have h1 := (motor_DMA_IRQHandler_effect sampleDescriptor sampleSystemFlagged).1 (by decide)
  exact ⟨⟨h1.1, h1.2.2.2.1⟩,
    (motor_DMA_IRQHandler_effect sampleDescriptor sampleSystem).2 (by decide)⟩

/-! ## Properties of `getTimerIndex` -/

/-- One more call extends the order of first appearance only by a new identity. -/
theorem firstSeen_snoc (pre : List TimId) (t : TimId) :
    firstSeen (pre ++ [t]) = if t ∈ firstSeen pre then firstSeen pre else firstSeen pre ++ [t] := by
  simp [firstSeen, List.foldl_append]

/-- The order of first appearance has the same members as the sequence. -/
theorem mem_firstSeen (seq : List TimId) (t : TimId) : t ∈ firstSeen seq ↔ t ∈ seq := by
  induction seq using List.reverseRecOn with
  | nil => simp [firstSeen]
  | append_singleton pre x ih =>
    rw [firstSeen_snoc]
    by_cases hx : x ∈ firstSeen pre
    · rw [if_pos hx]
      simp only [List.mem_append, List.mem_singleton]
      constructor
      · intro h
        exact Or.inl (ih.1 h)
      · rintro (h | h)
        · exact ih.2 h
        · rw [h]; exact hx
    · rw [if_neg hx]
      simp [ih]

/-- The order of first appearance has no repetition. -/
theorem nodup_firstSeen (seq : List TimId) : (firstSeen seq).Nodup := by
  induction seq using List.reverseRecOn with
  | nil => simp [firstSeen]
  | append_singleton pre x ih =>
    rw [firstSeen_snoc]
    by_cases hx : x ∈ firstSeen pre
    · rw [if_pos hx]; exact ih
    · rw [if_neg hx]
      rw [List.nodup_append]
      refine ⟨ih, List.nodup_singleton x, ?_⟩
      intro a ha hb
      simp at hb
      subst hb
      exact hx ha

/-- Its length is the number of distinct identities. -/
theorem length_firstSeen (seq : List TimId) : (firstSeen seq).length = seq.toFinset.card := by
  rw [← List.toFinset_card_of_nodup (nodup_firstSeen seq)]
  congr 1
  ext t
  simp [mem_firstSeen]

/-- The position of a timer in the order of first appearance is the number of
distinct identities before its first occurrence. -/
theorem indexOf_firstSeen (seq : List TimId) (t : TimId) (ht : t ∈ seq) :
    (firstSeen seq).indexOf t = (seq.take (seq.indexOf t)).toFinset.card := by
  induction seq using List.reverseRecOn with
  | nil => simp at ht
  | append_singleton pre x ih =>
    by_cases hp : t ∈ pre
    · have h1 : List.indexOf t (pre ++ [x]) = List.indexOf t pre := List.indexOf_append_of_mem hp
      have h2 : List.indexOf t pre ≤ pre.length := List.indexOf_le_length
      rw [h1, List.take_append_of_le_length h2, ← ih hp, firstSeen_snoc]
      split
      · rfl
      · exact List.indexOf_append_of_mem ((mem_firstSeen pre t).2 hp)
    · have htx : t = x := by
        simp only [List.mem_append, List.mem_singleton] at ht
        rcases ht with h | h
        · exact absurd h hp
        · exact h
      subst htx
      have h1 : List.indexOf t (pre ++ [t]) = pre.length := by
        rw [List.indexOf_append_of_not_mem hp]
        simp
      have hx : t ∉ firstSeen pre := fun h => hp ((mem_firstSeen pre t).1 h)
      rw [h1, firstSeen_snoc, if_neg hx, List.indexOf_append_of_not_mem hx]
      simp [length_firstSeen]

/-- The search loop returns the position of the first match among the `n`
entries from index `i` on, or reports that there is none. -/
theorem getTimerIndex_loop_spec (timers : List motorDmaTimer_t) (t : TimId) :
    ∀ (n i : Nat), i + n ≤ timers.length →
      getTimerIndex.loop timers t n i =
        some (if t ∈ ((timers.drop i).take n).map (fun e => e.timer)
              then some (i + List.indexOf t (((timers.drop i).take n).map (fun e => e.timer)))
              else none) := by
  intro n
  induction n with
  | zero =>
    intro i _
    simp [getTimerIndex.loop]
  | succ n ih =>
    intro i hi
    have hlt : i < timers.length := by omega
    have hd : timers.drop i = timers[i] :: timers.drop (i + 1) := List.drop_eq_getElem_cons hlt
    rw [getTimerIndex.loop, List.getElem?_eq_getElem hlt]
    simp only
    rw [hd, List.take_succ_cons, List.map_cons]
    by_cases he : timers[i].timer = t
    · rw [if_pos he]
      simp [he]
    · rw [if_neg he, ih (i + 1) (by omega)]
      have hne : t ≠ timers[i].timer := fun h => he h.symm
      by_cases hm : t ∈ List.map (fun e => e.timer) (List.take n (List.drop (i + 1) timers))
      · rw [if_pos hm, if_pos (List.mem_cons_of_mem _ hm), List.indexOf_cons_ne _ (Ne.symm hne)]
        congr 2
        omega
      · rw [if_neg hm, if_neg]
        simp only [List.mem_cons, not_or]
        exact ⟨hne, hm⟩

/-- A timer that is already registered is found at its position; the state
does not change. -/
theorem getTimerIndex_found (s : System) (seen : List TimId) (t : TimId)
    (hinv : RegistryHolds s seen) (ht : t ∈ seen) :
    getTimerIndex t s = some (List.indexOf t seen, s) := by
  obtain ⟨hc, hl, hcap, hseen⟩ := hinv
  have hspec := getTimerIndex_loop_spec s.dmaMotorTimers t seen.length 0 (by omega)
  simp only [List.drop_zero, hseen, if_pos ht, Nat.zero_add] at hspec
  unfold getTimerIndex
  rw [hc, hspec]
  simp only
  have hlt : List.indexOf t seen < seen.length := List.indexOf_lt_length.2 ht
  rw [Nat.mod_eq_of_lt (by unfold MAX_DMA_TIMERS at hcap; omega)]

/-- A timer that is not registered yet is appended, provided the registry is
not full: the call returns the old count, and only the registry changes. -/
theorem getTimerIndex_new (s : System) (seen : List TimId) (t : TimId)
    (hinv : RegistryHolds s seen) (ht : t ∉ seen) (hroom : seen.length < MAX_DMA_TIMERS) :
    ∃ s', getTimerIndex t s = some (seen.length, s') ∧ RegistryHolds s' (seen ++ [t]) ∧
      s'.dmaMotors = s.dmaMotors ∧ s'.hw = s.hw ∧ s'.log = s.log := by
  obtain ⟨hc, hl, hcap, hseen⟩ := hinv
  have hlt : seen.length < s.dmaMotorTimers.length := by omega
  have hspec : getTimerIndex.loop s.dmaMotorTimers t s.dmaMotorTimerCount 0 = some none := by
    have h := getTimerIndex_loop_spec s.dmaMotorTimers t seen.length 0 (by omega)
    simp only [List.drop_zero, hseen, if_neg ht] at h
    rw [hc]
    exact h
  have hget : s.dmaMotorTimers[s.dmaMotorTimerCount]? = some s.dmaMotorTimers[seen.length] := by
    rw [List.getElem?_eq_some]
    exact ⟨by omega, by simp [hc]⟩
  unfold MAX_DMA_TIMERS at hroom hcap hl
  refine ⟨{ s with
            dmaMotorTimers := s.dmaMotorTimers.set seen.length { s.dmaMotorTimers[seen.length] with timer := t }
            dmaMotorTimerCount := seen.length + 1 }, ?_, ⟨?_, ?_, ?_, ?_⟩, rfl, rfl, rfl⟩
  · simp only [getTimerIndex, hspec, hget]
    rw [hc, Nat.mod_eq_of_lt (by omega : seen.length + 1 < 256)]
    congr 2
    omega
  · simp
  · simp [MAX_DMA_TIMERS, hl]
  · simp [MAX_DMA_TIMERS]
    omega
  · simp only [List.length_append, List.length_singleton]
    rw [List.take_succ, List.map_append]
    congr 1
    · rw [List.set_eq_take_append_cons_drop, if_pos hlt, List.take_append_eq_append_take]
      have hl : (List.take seen.length s.dmaMotorTimers).length = seen.length := by
        simp
        omega
      simp only [hl, Nat.sub_self, List.take_zero, List.append_nil, List.take_take, Nat.min_self]
      exact hseen
    · simp [List.getElem?_set, hlt]

/-- The zeroed registry holds no identity. -/
theorem registryHolds_init (maxMotors : Nat) (hw : Hw) :
    RegistryHolds (initSystem maxMotors hw) [] := by
  simp [RegistryHolds, initSystem, MAX_DMA_TIMERS]

/-- A sequence of calls followed by one more call. -/
theorem getTimerIndexSeq_snoc (pre : List TimId) (t : TimId) :
    ∀ (s : System) (rets : List Nat) (s1 : System) (i : Nat) (s2 : System),
      getTimerIndexSeq pre s = some (rets, s1) → getTimerIndex t s1 = some (i, s2) →
      getTimerIndexSeq (pre ++ [t]) s = some (rets ++ [i], s2) := by
  induction pre with
  | nil =>
    intro s rets s1 i s2 h1 h2
    simp only [getTimerIndexSeq, Option.some.injEq, Prod.mk.injEq] at h1
    obtain ⟨rfl, rfl⟩ := h1
    simp [getTimerIndexSeq, h2]
  | cons x pre ih =>
    intro s rets s1 i s2 h1 h2
    simp only [getTimerIndexSeq, List.cons_append] at h1 ⊢
    cases hx : getTimerIndex x s with
    | none => simp [hx] at h1
    | some r =>
      obtain ⟨j, sx⟩ := r
      simp only [hx] at h1 ⊢
      cases hp : getTimerIndexSeq pre sx with
      | none => simp [hp] at h1
      | some q =>
        obtain ⟨js, sp⟩ := q
        simp only [hp, Option.some.injEq, Prod.mk.injEq] at h1
        obtain ⟨rfl, rfl⟩ := h1
        have hi := ih sx js sp i s2 hp h2
        simp only [List.append_eq] at hi ⊢
        rw [hi]
        simp

/-- Running the calls for `seq` from the zeroed registry succeeds when the
identities fit, returns for each call the position of its timer in the
order of first appearance, and leaves the registry holding that order. -/
theorem getTimerIndexSeq_firstSeen (maxMotors : Nat) (hw : Hw) (seq : List TimId) :
    (firstSeen seq).length ≤ MAX_DMA_TIMERS →
    ∃ s', getTimerIndexSeq seq (initSystem maxMotors hw) =
        some (seq.map (fun t => List.indexOf t (firstSeen seq)), s') ∧
      RegistryHolds s' (firstSeen seq) := by
  induction seq using List.reverseRecOn with
  | nil =>
    intro _
    exact ⟨_, rfl, registryHolds_init maxMotors hw⟩
  | append_singleton pre x ih =>
    intro hcap
    rw [firstSeen_snoc] at hcap
    by_cases hx : x ∈ firstSeen pre
    · rw [if_pos hx] at hcap
      obtain ⟨s1, hrun, hinv⟩ := ih hcap
      refine ⟨s1, ?_, ?_⟩
      · rw [getTimerIndexSeq_snoc pre x _ _ s1 _ s1 hrun (getTimerIndex_found s1 _ x hinv hx)]
        simp [firstSeen_snoc, hx]
      · rw [firstSeen_snoc, if_pos hx]
        exact hinv
    · rw [if_neg hx] at hcap
      simp only [List.length_append, List.length_singleton] at hcap
      obtain ⟨s1, hrun, hinv⟩ := ih (by omega)
      obtain ⟨s2, hstep, hinv2, _⟩ := getTimerIndex_new s1 _ x hinv hx (by omega)
      refine ⟨s2, ?_, ?_⟩
      · rw [getTimerIndexSeq_snoc pre x _ _ s1 _ s2 hrun hstep]
        simp only [firstSeen_snoc, if_neg hx, List.map_append, List.map_cons, List.map_nil]
        have ha : pre.map (fun t => List.indexOf t (firstSeen pre)) =
            pre.map (fun t => List.indexOf t (firstSeen pre ++ [x])) := by
          apply List.map_congr_left
          intro a ha
          exact (List.indexOf_append_of_mem ((mem_firstSeen pre a).2 ha)).symm
        have hb : List.indexOf x (firstSeen pre ++ [x]) = (firstSeen pre).length := by
          rw [List.indexOf_append_of_not_mem hx]
          simp
        rw [ha, hb]
      · rw [firstSeen_snoc, if_neg hx]
        exact hinv2

/-- Claim C7: from the zeroed registry, a sequence of `getTimerIndex` calls
with at most `MAX_DMA_TIMERS` distinct timers succeeds; each call returns the
number of distinct identities that occur before the first occurrence of its
timer; equal timers get equal indices; distinct timers get 0, 1, 2, ... in
order; and `dmaMotorTimerCount` ends as the number of distinct timers. -/
theorem getTimerIndexSeq_spec (maxMotors : Nat) (hw : Hw) (seq : List TimId)
    (h : seq.toFinset.card ≤ MAX_DMA_TIMERS) :
    ∃ rets s', getTimerIndexSeq seq (initSystem maxMotors hw) = some (rets, s') ∧
      rets = seq.map (fun t => (seq.take (List.indexOf t seq)).toFinset.card) ∧
      (∀ j k : Nat, seq[j]? = seq[k]? → rets[j]? = rets[k]?) ∧
      (seq.Nodup → rets = List.range seq.length) ∧
      s'.dmaMotorTimerCount = seq.toFinset.card := by
  obtain ⟨s', hrun, hinv⟩ :=
    getTimerIndexSeq_firstSeen maxMotors hw seq (by rw [length_firstSeen]; exact h)
  have hmap : seq.map (fun t => List.indexOf t (firstSeen seq)) =
      seq.map (fun t => (seq.take (List.indexOf t seq)).toFinset.card) := by
    apply List.map_congr_left
    intro a ha
    exact indexOf_firstSeen seq a ha
  refine ⟨_, s', hrun, hmap, ?_, ?_, ?_⟩
  · intro j k hjk
    rw [hmap, List.getElem?_map, List.getElem?_map, hjk]
  · intro hnd
    rw [hmap]
    apply List.ext_getElem
    · simp
    · intro n h1 h2
      simp only [List.getElem_map, List.getElem_range]
      rw [List.indexOf_getElem hnd, List.toFinset_card_of_nodup (hnd.sublist (List.take_sublist _ _))]
      simp at h1
      simp
      omega
  · rw [hinv.1, length_firstSeen]

/-- Claim C7 instantiated: the calls for timers 5, 7, 5, 9, 7, 1 return
0, 1, 0, 2, 1, 3 and leave four registered timers. -/
theorem getTimerIndexSeq_spec_witness :
    ∃ s', getTimerIndexSeq [5, 7, 5, 9, 7, 1] (initSystem 4 resetHw) = some ([0, 1, 0, 2, 1, 3], s') ∧
      s'.dmaMotorTimerCount = 4 := by
  obtain ⟨rets, s', h1, h2, _, _, h5⟩ :=
    getTimerIndexSeq_spec 4 resetHw [5, 7, 5, 9, 7, 1] (by decide)
  have e1 : rets = [0, 1, 0, 2, 1, 3] := by
    rw [h2]
    decide
  have e2 : s'.dmaMotorTimerCount = 4 := by
    rw [h5]
    decide
  rw [e1] at h1
  exact ⟨s', h1, e2⟩

/-! ## Evaluation of `pwmDigitalMotorHardwareConfig` and `pwmCompleteDigitalMotorUpdate` -/

/-- Claim C5 fails on the code: after motor 0 has been configured on channel 1
of a timer (prescaler 2 for the 24 MHz variant), configuring motor 1 on
channel 2 of the same timer, which is already in the registry and adds no
entry, again stops the timer and calls `TIM_TimeBaseInit`, overwriting the
prescaler with 11: `getTimerIndex` returns 0, which equals
`dmaMotorTimerCount - 1` although nothing was created. -/
theorem pwmDigitalMotorHardwareConfig_reconfigures :
    ∃ s1 s2,
      pwmDigitalMotorHardwareConfig sampleTarget sampleHardwareA 0 .PWM_TYPE_DSHOT600
        (initSystem 4 resetHw) = some s1 ∧
      pwmDigitalMotorHardwareConfig sampleTarget sampleHardwareB 1 .PWM_TYPE_DSHOT150 s1
        = some s2 ∧
      (s1.dmaMotorTimers.take s1.dmaMotorTimerCount).map (fun e => e.timer)
        = [sampleHardwareB.tim] ∧
      getTimerIndex sampleHardwareB.tim s1 = some (0, s1) ∧
      s2.dmaMotorTimerCount = s1.dmaMotorTimerCount ∧
      (s1.hw.tim sampleHardwareB.tim).psc = 2 ∧
      (s2.hw.tim sampleHardwareB.tim).psc = 11 ∧
      s2.log.drop s1.log.length =
        [ HwCall.IOInit 2,
          HwCall.IOConfigGPIOAF 2 2,
          HwCall.RCC_ClockCmd sampleHardwareB.tim true,
          HwCall.TIM_Cmd sampleHardwareB.tim false,
          HwCall.TIM_TimeBaseInit sampleHardwareB.tim 11 MOTOR_BITLENGTH,
          HwCall.TIM_OCInit sampleHardwareB.tim 2,
          HwCall.TIM_OCPreloadConfig sampleHardwareB.tim 2,
          HwCall.TIM_CtrlPWMOutputs sampleHardwareB.tim true,
          HwCall.TIM_ARRPreloadConfig sampleHardwareB.tim true,
          HwCall.TIM_Cmd sampleHardwareB.tim true,
          HwCall.DMA_Cmd 12 false,
          HwCall.DMA_DeInit 12,
          HwCall.TIM_DMACmd sampleHardwareB.tim TIM_DMA_CC2 true,
          HwCall.DMA_ITConfig 12 DMA_IT_TC true,
          HwCall.DMA_Init 12 0x40000438 1 MOTOR_DMA_BUFFER_SIZE,
          HwCall.dmaSetHandler 4 1 ] := by
  refine ⟨_, _, rfl, rfl, ?_, ?_, ?_, ?_, ?_, ?_⟩
  · decide
  · rfl
  · decide
  · decide
  · decide
  · decide

/-- Claim C6 fails on the code: after motor 0 has been configured on channel 1
of a timer, so that the motor's trigger source is `TIM_DMA_CC1`,
`pwmCompleteDigitalMotorUpdate` resets the counter of that timer and then
calls `TIM_DMACmd` with the source mask 0, because no routine ever writes
`timerDmaSources` of a registry entry. -/
theorem pwmCompleteDigitalMotorUpdate_mask_zero :
    ∃ s1 s2,
      pwmDigitalMotorHardwareConfig sampleTarget sampleHardwareA 0 .PWM_TYPE_DSHOT600
        (initSystem 4 resetHw) = some s1 ∧
      pwmCompleteDigitalMotorUpdate 1 s1 = some s2 ∧
      s1.dmaMotors[0]?.map (fun m => m.timerDmaSource) = some TIM_DMA_CC1 ∧
      s2.log.drop s1.log.length =
        [ HwCall.TIM_SetCounter sampleHardwareA.tim 0,
          HwCall.TIM_DMACmd sampleHardwareA.tim 0 true ] := by
  refine ⟨_, _, rfl, rfl, ?_, ?_⟩
  · decide
  · decide

/-! ## The batch update after any sequence of configuration calls -/

/-- The zeroed registry records no trigger source. -/
theorem sourcesUnset_init (maxMotors : Nat) (hw : Hw) : SourcesUnset (initSystem maxMotors hw) := by
  intro e he
  simp only [initSystem] at he
  rw [List.eq_of_mem_replicate he]

/-- The routine `getTimerIndex` writes the `timer` field only. -/
theorem getTimerIndex_sources (t : TimId) (s s' : System) (i : Nat)
    (h : getTimerIndex t s = some (i, s')) (hs : SourcesUnset s) : SourcesUnset s' := by
  unfold getTimerIndex at h
  split at h
  · exact Option.noConfusion h
  · simp only [Option.some.injEq, Prod.mk.injEq] at h
    rw [← h.2]
    exact hs
  · split at h
    · exact Option.noConfusion h
    · rename_i e he
      simp only [Option.some.injEq, Prod.mk.injEq] at h
      rw [← h.2]
      intro x hx
      rcases List.mem_or_eq_of_mem_set hx with hx | hx
      · exact hs x hx
      · have hmem : e ∈ s.dmaMotorTimers := by
          obtain ⟨hlt, heq⟩ := List.getElem?_eq_some.1 he
          rw [← heq]
          exact List.getElem_mem ..
        rw [hx]
        exact hs e hmem

/-- The routine `setTimerDmaSource` leaves the registry alone. -/
theorem setTimerDmaSource_timers (i src : Nat) (s : System) :
    (setTimerDmaSource i src s).dmaMotorTimers = s.dmaMotorTimers ∧
    (setTimerDmaSource i src s).dmaMotorTimerCount = s.dmaMotorTimerCount := by
  unfold setTimerDmaSource
  split <;> exact ⟨rfl, rfl⟩

/-- The time-base block leaves the registry alone. -/
theorem configTimeBase_timers (tgt : Target) (timer : TimId) (p : motorPwmProtocolTypes_e)
    (b : Bool) (s s' : System) (h : configTimeBase tgt timer p b s = some s') :
    s'.dmaMotorTimers = s.dmaMotorTimers ∧ s'.dmaMotorTimerCount = s.dmaMotorTimerCount := by
  unfold configTimeBase at h
  cases b
  · simp only [Bool.false_eq_true, if_false, Option.some.injEq] at h
    rw [← h]
    exact ⟨rfl, rfl⟩
  · simp only [if_true] at h
    by_cases hd : tgt.timerClockDivisor timer = 0
    · simp [hd] at h
    · simp only [hd, if_false, Option.some.injEq] at h
      rw [← h]
      exact ⟨rfl, rfl⟩

/-- After the registry look-up, the rest of the configuration leaves the
registry alone. -/
theorem pwmDigitalMotorHardwareConfig_timers (tgt : Target) (th : timerHardware_t)
    (motorIndex : Nat) (p : motorPwmProtocolTypes_e) (s s' : System)
    (h : pwmDigitalMotorHardwareConfig tgt th motorIndex p s = some s') :
    ∃ m i s1, s.dmaMotors[motorIndex]? = some m ∧
      getTimerIndex th.tim
        { s with dmaMotors := s.dmaMotors.set motorIndex { m with timerHardware := some th } }
        = some (i, s1) ∧
      s'.dmaMotorTimers = s1.dmaMotorTimers ∧ s'.dmaMotorTimerCount = s1.dmaMotorTimerCount := by
  unfold pwmDigitalMotorHardwareConfig at h
  split at h
  · exact Option.noConfusion h
  · rename_i m hm
    simp only at h
    split at h
    · exact Option.noConfusion h
    · rename_i i s1 hg
      refine ⟨m, i, s1, hm, hg, ?_⟩
      split at h
      · exact Option.noConfusion h
      · rename_i s5 h5
        have e5 : s5.dmaMotorTimers = s1.dmaMotorTimers ∧
            s5.dmaMotorTimerCount = s1.dmaMotorTimerCount := by
          have e := configTimeBase_timers _ _ _ _ _ _ h5
          exact e
        have e6 : ∀ (c : Nat) (x : System),
            (configChannel th.tim c motorIndex x).2.dmaMotorTimers = x.dmaMotorTimers ∧
            (configChannel th.tim c motorIndex x).2.dmaMotorTimerCount = x.dmaMotorTimerCount := by
          intro c x
          unfold configChannel
          split
          · simp only [emit]
            exact setTimerDmaSource_timers _ _ _
          · split
            · simp only [emit]
              exact setTimerDmaSource_timers _ _ _
            · split
              · simp only [emit]
                exact setTimerDmaSource_timers _ _ _
              · split
                · simp only [emit]
                  exact setTimerDmaSource_timers _ _ _
                · exact ⟨rfl, rfl⟩
        have e7 : ∀ (b : Bool) (x : System),
            (startTimer th.tim b x).dmaMotorTimers = x.dmaMotorTimers ∧
            (startTimer th.tim b x).dmaMotorTimerCount = x.dmaMotorTimerCount := by
          intro b x
          unfold startTimer
          split <;> exact ⟨rfl, rfl⟩
        unfold configDma at h
        simp only at h
        split at h
        · exact Option.noConfusion h
        · cases h
          simp only [emit]
          rw [(e7 _ _).1, (e7 _ _).2, (e6 _ _).1, (e6 _ _).2]
          exact e5

/-- A full registry rejects a timer it does not hold. -/
theorem getTimerIndex_full (s : System) (seen : List TimId) (t : TimId)
    (hinv : RegistryHolds s seen) (ht : t ∉ seen) (hfull : seen.length = MAX_DMA_TIMERS) :
    getTimerIndex t s = none := by
  obtain ⟨hc, hl, hcap, hseen⟩ := hinv
  have h := getTimerIndex_loop_spec s.dmaMotorTimers t seen.length 0 (by omega)
  simp only [List.drop_zero, hseen, if_neg ht] at h
  unfold getTimerIndex
  rw [hc, h]
  simp only
  rw [List.getElem?_eq_none (by omega)]

/-- One registry look-up moves the registry to the next order of first
appearance. -/
theorem getTimerIndex_step (s s' : System) (seen : List TimId) (t : TimId) (i : Nat)
    (hinv : RegistryHolds s seen) (h : getTimerIndex t s = some (i, s')) :
    RegistryHolds s' (if t ∈ seen then seen else seen ++ [t]) := by
  by_cases ht : t ∈ seen
  · rw [if_pos ht]
    rw [getTimerIndex_found s seen t hinv ht] at h
    cases h
    exact hinv
  · rw [if_neg ht]
    by_cases hfull : seen.length = MAX_DMA_TIMERS
    · rw [getTimerIndex_full s seen t hinv ht hfull] at h
      exact Option.noConfusion h
    · obtain ⟨s2, h2, hinv2, _⟩ := getTimerIndex_new s seen t hinv ht
        (lt_of_le_of_ne hinv.2.2.1 hfull)
      rw [h2] at h
      cases h
      exact hinv2

/-- One configuration call keeps the registry invariants. -/
theorem pwmDigitalMotorHardwareConfig_registry (tgt : Target) (th : timerHardware_t)
    (motorIndex : Nat) (p : motorPwmProtocolTypes_e) (s s' : System) (seen : List TimId)
    (h : pwmDigitalMotorHardwareConfig tgt th motorIndex p s = some s')
    (hinv : RegistryHolds s seen) (hs : SourcesUnset s) :
    RegistryHolds s' (if th.tim ∈ seen then seen else seen ++ [th.tim]) ∧ SourcesUnset s' := by
  obtain ⟨m, i, s1, _, hg, ht, hc⟩ := pwmDigitalMotorHardwareConfig_timers tgt th motorIndex p s s' h
  have hinv0 : RegistryHolds
      { s with dmaMotors := s.dmaMotors.set motorIndex { m with timerHardware := some th } }
      seen := hinv
  have h1 := getTimerIndex_step _ s1 seen th.tim i hinv0 hg
  have h2 := getTimerIndex_sources th.tim _ s1 i hg hs
  constructor
  · unfold RegistryHolds at h1 ⊢
    rw [ht, hc]
    exact h1
  · unfold SourcesUnset at h2 ⊢
    rw [ht]
    exact h2

/-- After any sequence of configuration calls from a state whose registry
holds `seen`, the registry holds the order of first appearance extended by
the configured timers, and still records no trigger source. -/
theorem configAll_registry (tgt : Target)
    (cs : List (timerHardware_t × Nat × motorPwmProtocolTypes_e)) :
    ∀ (s s' : System) (seen : List TimId), configAll tgt cs s = some s' →
      RegistryHolds s seen → SourcesUnset s →
      RegistryHolds s'
        ((cs.map (fun c => c.1.tim)).foldl (fun acc t => if t ∈ acc then acc else acc ++ [t]) seen) ∧
      SourcesUnset s' := by
  induction cs with
  | nil =>
    intro s s' seen h hinv hs
    simp only [configAll, Option.some.injEq] at h
    rw [← h]
    exact ⟨hinv, hs⟩
  | cons c cs ih =>
    intro s s' seen h hinv hs
    simp only [configAll] at h
    split at h
    · exact Option.noConfusion h
    · rename_i s1 h1
      obtain ⟨k1, k2⟩ := pwmDigitalMotorHardwareConfig_registry tgt c.1 c.2.1 c.2.2 s s1 seen h1 hinv hs
      exact ih s1 s' _ h k1 k2

/-- The loop of `pwmCompleteDigitalMotorUpdate` succeeds on entries inside the
registry array and makes the restart calls of these entries, in order,
changing nothing but the peripherals. -/
theorem pwmCompleteDigitalMotorUpdate_loop_log :
    ∀ (n i : Nat) (s : System), i + n ≤ s.dmaMotorTimers.length →
      ∃ s', pwmCompleteDigitalMotorUpdate.loop n i s = some s' ∧
        s'.log = s.log ++ ((s.dmaMotorTimers.drop i).take n).flatMap restartCalls ∧
        s'.dmaMotorTimers = s.dmaMotorTimers ∧ s'.dmaMotorTimerCount = s.dmaMotorTimerCount ∧
        s'.dmaMotors = s.dmaMotors := by
  intro n
  induction n with
  | zero =>
    intro i s _
    exact ⟨s, rfl, by simp, rfl, rfl, rfl⟩
  | succ n ih =>
    intro i s hi
    have hlt : i < s.dmaMotorTimers.length := by omega
    have hd : s.dmaMotorTimers.drop i = s.dmaMotorTimers[i] :: s.dmaMotorTimers.drop (i + 1) :=
      List.drop_eq_getElem_cons hlt
    obtain ⟨s', h1, h2, h3, h4, h5⟩ := ih (i + 1)
      (emit (.TIM_DMACmd s.dmaMotorTimers[i].timer s.dmaMotorTimers[i].timerDmaSources true)
        (emit (.TIM_SetCounter s.dmaMotorTimers[i].timer 0) s)) (by simp only [emit]; omega)
    refine ⟨s', ?_, ?_, h3, h4, h5⟩
    · rw [pwmCompleteDigitalMotorUpdate.loop, List.getElem?_eq_getElem hlt]
      exact h1
    · rw [h2, hd, List.take_succ_cons, List.flatMap_cons]
      simp only [emit, restartCalls, List.append_assoc, List.cons_append, List.nil_append]

/-- On entries that record no trigger source the restart calls carry the
mask 0. -/
theorem flatMap_restartCalls_unset (l : List motorDmaTimer_t)
    (h : ∀ e ∈ l, e.timerDmaSources = 0) :
    l.flatMap restartCalls = (l.map (fun e => e.timer)).flatMap restartCallsUnset := by
  induction l with
  | nil => rfl
  | cons e l ih =>
    simp only [List.flatMap_cons, List.map_cons]
    rw [ih (fun x hx => h x (List.mem_cons_of_mem _ hx))]
    simp [restartCalls, restartCallsUnset, h e (List.mem_cons_self _ _)]

/-- What `pwmCompleteDigitalMotorUpdate` does after any sequence of
configuration calls from the zeroed state: for each distinct configured
timer, in order of first appearance, and for no other, it resets the counter
and then enables DMA requests with the source mask 0. -/
theorem pwmCompleteDigitalMotorUpdate_after_config (tgt : Target) (maxMotors : Nat) (hw : Hw)
    (cs : List (timerHardware_t × Nat × motorPwmProtocolTypes_e)) (s : System) (motorCount : Nat)
    (h : configAll tgt cs (initSystem maxMotors hw) = some s) :
    ∃ s', pwmCompleteDigitalMotorUpdate motorCount s = some s' ∧
      s'.log = s.log ++ (firstSeen (cs.map (fun c => c.1.tim))).flatMap restartCallsUnset := by
  obtain ⟨hinv, hs⟩ := configAll_registry tgt cs _ s [] h
    (registryHolds_init maxMotors hw) (sourcesUnset_init maxMotors hw)
  obtain ⟨hc, hl, hcap, hseen⟩ := hinv
  obtain ⟨s', h1, h2, _⟩ := pwmCompleteDigitalMotorUpdate_loop_log s.dmaMotorTimerCount 0 s
    (by rw [hc, hl, Nat.zero_add]; exact hcap)
  refine ⟨s', h1, ?_⟩
  rw [h2, List.drop_zero, flatMap_restartCalls_unset _ (fun e he => hs e (List.mem_of_mem_take he)),
    hc, hseen]
  rfl

end PwmOutput
